import Mathlib

set_option maxRecDepth 100000

/-!
Verification development for the pytempo streaming tempo detector
(src/pytempo/detector.py).  The detector consumes 16-bit PCM samples in
1024-sample blocks, computes 32 sub-band energies per block through a
pluggable spectral transform, flags per-band beats against an adaptive
threshold, and derives a BPM estimate from periodic gap voting over the
per-band beat histories.

Numbers are embedded as exact rationals; the Python float arithmetic of the
source only ever compares and averages values far from any decision
boundary in the claims below, and equal gap lengths always produce
bit-identical votes, so the rational model preserves every branch the
claims are about.  The twiddle factors of the reference fft are
transcendental and appear in no claim, so they are abstracted as a
parameter.
-/

namespace PyTempo

/-- Complex numbers with rational components, embedding the Python complex
arithmetic used by the pipeline (squared moduli and fft butterflies). -/
structure Cx where
  re : ℚ
  im : ℚ
deriving DecidableEq

def Cx.zero : Cx := ⟨0, 0⟩

def Cx.add (a b : Cx) : Cx := ⟨a.re + b.re, a.im + b.im⟩

def Cx.sub (a b : Cx) : Cx := ⟨a.re - b.re, a.im - b.im⟩

def Cx.mul (a b : Cx) : Cx := ⟨a.re * b.re - a.im * b.im, a.re * b.im + a.im * b.re⟩

/-- Embedding of collections.deque with a maximum length m: append puts the
new element on the right and the oldest element falls off the left once the
deque holds m entries. -/
def dequePush {α : Type} (m : ℕ) (xs : List α) (a : α) : List α :=
  let ys := xs ++ [a]
  ys.drop (ys.length - m)

/-- Elements at even indices, x[0::2] in the source fft. -/
def evens {α : Type} : List α → List α
  | [] => []
  | [a] => [a]
  | a :: _ :: rest => a :: evens rest

/-- Elements at odd indices, x[1::2] in the source fft. -/
def odds {α : Type} : List α → List α
  | [] => []
  | [_] => []
  | _ :: b :: rest => b :: odds rest

theorem evens_length {α : Type} : ∀ l : List α, (evens l).length = (l.length + 1) / 2
  | [] => by simp [evens]
  | [_] => by simp [evens]
  | _ :: _ :: rest => by
    simp only [evens, List.length_cons, evens_length rest]
    omega

theorem odds_length {α : Type} : ∀ l : List α, (odds l).length = l.length / 2
  | [] => by simp [odds]
  | [_] => by simp [odds]
  | _ :: _ :: rest => by
    simp only [odds, List.length_cons, odds_length rest]
    omega

/-- Embedding of the reference fft of the source (recursive radix-2
decimation adapted from rosetta code).  The twiddle factor exp(-2 pi i k / n)
is supplied as the abstract parameter w applied to n and k; no claim below
depends on its value. -/
def fftRef (w : ℕ → ℕ → Cx) (x : List Cx) : List Cx :=
  if x.length ≤ 1 then x
  else
    let even := fftRef w (evens x)
    let odd := fftRef w (odds x)
    let t := (List.range (x.length / 2)).map (fun k => Cx.mul (w x.length k) (odd.getD k Cx.zero))
    ((List.range (x.length / 2)).map (fun k => Cx.add (even.getD k Cx.zero) (t.getD k Cx.zero))) ++
      ((List.range (x.length / 2)).map (fun k => Cx.sub (even.getD k Cx.zero) (t.getD k Cx.zero)))
termination_by x.length
decreasing_by
  · rw [evens_length]; omega
  · rw [odds_length]; omega

/-- Embedding of TempoDetector._gap_to_bpm: convert a gap length of
sequential instantaneous energy bins to a BPM value. -/
def gap_to_bpm (gap_length : ℕ) : ℚ :=
  (1 / ((gap_length : ℚ) / 43)) * 60

/-- Occurrence counter for one candidate gap length: the number of start
positions whose beat flags are set at both ends of the gap (the inner loop
of _detect_tempo). -/
def gapCount (h : List Bool) (g : ℕ) : ℕ :=
  ((List.range (h.length - g)).filter
    (fun start => h.getD start false && h.getD (start + g) false)).length

/-- Keys of the gap_length_counts defaultdict in first-insertion order: the
outer loop runs the gap lengths in ascending order, so the keys are the
ascending gap lengths that received at least one count. -/
def gapKeys (h : List Bool) : List ℕ :=
  (List.range' 19 16).filter (fun g => decide (0 < gapCount h g))

/-- Embedding of the bpm_candidates construction of _detect_tempo: one vote
per counted occurrence, skipping gap lengths with fewer than two
occurrences. -/
def bpm_candidates (h : List Bool) : List ℚ :=
  ((gapKeys h).filter (fun g => decide (2 ≤ gapCount h g))).flatMap
    (fun g => List.replicate (gapCount h g) (gap_to_bpm g))

/-- Keys of a counting defaultdict over rationals, in first-insertion order
(Python dicts preserve insertion order). -/
def key_order (l : List ℚ) : List ℚ :=
  l.foldl (fun ks b => if b ∈ ks then ks else ks ++ [b]) []

/-- The (value, count) pairs read off a counting defaultdict, in key order. -/
def count_pairs (l : List ℚ) : List (ℚ × ℕ) :=
  (key_order l).map (fun b => (b, l.count b))

/-- Python list.sort keyed on the count with reverse set is a stable
descending sort by count; a stable insertion sort computes the same list. -/
def sort_by_count_desc (l : List (ℚ × ℕ)) : List (ℚ × ℕ) :=
  List.insertionSort (fun a b => b.2 ≤ a.2) l

/-- The most common value of a nonempty list of votes, ties resolved toward
the value first inserted into the dict: counts[0][0] after the stable
reverse sort. -/
def most_common (l : List ℚ) : ℚ :=
  ((sort_by_count_desc (count_pairs l)).headD (0, 0)).1

/-- Embedding of TempoDetector._detect_tempo. -/
def detect_tempo (beat_history : List Bool) : Option ℚ :=
  if beat_history.length ≠ 43 * 7 then none
  else
    let cands := bpm_candidates beat_history
    if cands.length < 2 then none
    else
      let bpm := most_common cands
      if 71 < bpm ∧ bpm < 139 then some bpm else none

/-- Mutable analysis state of a TempoDetector instance: 32 per-band energy
histories (deque of maximum length 43) and 32 per-band beat histories
(deque of maximum length 43 * 7). -/
structure DetectorState where
  energy_hist_per_freq_band : List (List ℚ)
  beat_histories : List (List Bool)
deriving DecidableEq

/-- The state built by TempoDetector.__init__: 32 empty deques of each kind. -/
def initState : DetectorState :=
  ⟨List.replicate 32 [], List.replicate 32 []⟩

/-- Embedding of TempoDetector._detect_tempos: run _detect_tempo on (a deep
copy of) each of the 16 lower band beat histories, drop the bands that
produced no estimate and return the most commonly detected BPM across the
bands, or none when every band produced none. -/
def detect_tempos (s : DetectorState) : Option ℚ :=
  let band_bpms :=
    ((List.range 16).map (fun i => detect_tempo (s.beat_histories.getD i []))).reduceOption
  if band_bpms = [] then none else some (most_common band_bpms)

/-- Squared modulus per frequency bin, then the sum of each contiguous group
of 32 bins as one sub-band energy (the middle of _detect_beat). -/
def inst_energies (spectrum : List Cx) : List ℚ :=
  let ampls_per_freq := spectrum.map (fun d => d.re * d.re + d.im * d.im)
  (List.range 32).map (fun sub_band =>
    ((List.range 32).map (fun i => ampls_per_freq.getD (sub_band * 32 + i) 0)).sum)

/-- The energy histories after appending this block's instantaneous
energies, one push per band. -/
def pushed_energy (s : DetectorState) (inst : List ℚ) : List (List ℚ) :=
  List.zipWith (fun hist e => dequePush 43 hist e) s.energy_hist_per_freq_band inst

/-- Embedding of _detect_beat after the transform: push the instantaneous
energies, and once band 0's history holds 43 entries compare each of the 16
lower bands' instantaneous energy against 1.3 times that band's average
history and push the per-band verdict onto that band's beat history. -/
def detect_beat_core (s : DetectorState) (spectrum : List Cx) : DetectorState :=
  let inst := inst_energies spectrum
  let eh := pushed_energy s inst
  if (eh.getD 0 []).length = 43 then
    let avgs := eh.map (fun x => x.sum / 43)
    ⟨eh, s.beat_histories.mapIdx (fun band_idx hist =>
      if band_idx < 16 then
        dequePush (43 * 7) hist
          (decide (inst.getD band_idx 0 > avgs.getD band_idx 0 * (13 / 10)))
      else hist)⟩
  else ⟨eh, s.beat_histories⟩

/-- Collapse one multi-channel sample into its channel average. -/
def collapse (data : List (List ℚ)) : List ℚ :=
  data.map (fun d => d.sum / (d.length : ℚ))

/-- Embedding of _detect_beat: collapse the channels, call the pluggable
transform, then process the resulting spectrum.  A raising transform is
modelled as an Except error; no history is touched in that case because the
source calls the transform before any history update. -/
def detect_beat (fftImpl : List ℚ → Except Unit (List Cx)) (s : DetectorState)
    (data : List (List ℚ)) : Except Unit DetectorState :=
  match fftImpl (collapse data) with
  | Except.error e => Except.error e
  | Except.ok spectrum => Except.ok (detect_beat_core s spectrum)

/-- Wrap a total transform as a never-failing pluggable transform. -/
def fftOk (f : List ℚ → List Cx) : List ℚ → Except Unit (List Cx) :=
  fun d => Except.ok (f d)

/-- The included transform applied to collapsed real samples. -/
def fftData (w : ℕ → ℕ → Cx) : List ℚ → List Cx :=
  fun data => fftRef w (data.map (fun q => ⟨q, 0⟩))

/-- One iteration of the processing loop on a full block: detect beats, then
derive a tempo and hand it to the publisher. -/
def process_block (fftImpl : List ℚ → Except Unit (List Cx)) (s : DetectorState)
    (data : List (List ℚ)) : Except Unit (DetectorState × Option ℚ) :=
  match detect_beat fftImpl s data with
  | Except.error e => Except.error e
  | Except.ok s' => Except.ok (s', detect_tempos s')

/-- The processing loop over a finite prefix of the block stream, returning
the final state and the published values in order.  An uncaught transform
failure kills the processing thread: no further block is analysed and
nothing further is published. -/
def run_blocks (fftImpl : List ℚ → Except Unit (List Cx)) :
    DetectorState → List (List (List ℚ)) → DetectorState × List (Option ℚ)
  | s, [] => (s, [])
  | s, data :: rest =>
    match process_block fftImpl s data with
    | Except.error _ => (s, [])
    | Except.ok (s', bpm) =>
      let res := run_blocks fftImpl s' rest
      (res.1, bpm :: res.2)

/-- Group an incoming sample stream into full 1024-sample blocks; a trailing
partial block is never analysed. -/
def chunk_blocks (samples : List (List ℚ)) : List (List (List ℚ)) :=
  if 1024 ≤ samples.length then
    samples.take 1024 :: chunk_blocks (samples.drop 1024)
  else []
termination_by samples.length
decreasing_by simp only [List.length_drop]; omega

/-- The full pipeline on a finite sample stream: one published value per
fully accumulated block. -/
def run_stream (fftImpl : List ℚ → Except Unit (List Cx)) (samples : List (List ℚ)) :
    DetectorState × List (Option ℚ) :=
  run_blocks fftImpl initState (chunk_blocks samples)

/-- Modelled from the spec: the mean of a list of BPM votes (spec 4.4 step 5,
which the source does not implement). -/
def list_mean (l : List ℚ) : ℚ := l.sum / l.length

/-- Modelled from the spec: the population variance of the votes, the square
of the standard deviation of spec 4.4 step 5. -/
def list_var (l : List ℚ) : ℚ :=
  (l.map (fun v => (v - list_mean l) * (v - list_mean l))).sum / l.length

/-- Modelled from the spec: the votes no farther than one standard deviation
from the overall mean; distances are compared squared so the test stays
rational. -/
def surviving_votes (l : List ℚ) : List ℚ :=
  l.filter (fun v => decide ((v - list_mean l) * (v - list_mean l) ≤ list_var l))

/-- Modelled from the spec: the aggregate per-block Beat Flag of spec 4.3,
true only when at least two bands register a band beat simultaneously (the
source keeps per-band flags instead). -/
def spec_aggregate_flag (band_flags : List Bool) : Bool :=
  decide (2 ≤ band_flags.count true)

/-- Modelled from the spec: the local baseline of spec 4.3, the arithmetic
mean of the 43 prior energies, not including the current block's energy
(the source includes it). -/
def spec_baseline (prior : List ℚ) : ℚ := prior.sum / 43

/-- A state all of whose recorded energies are zero and all of whose recorded
beat flags are false; the invariant maintained by an all-zero input stream. -/
def ZeroState (s : DetectorState) : Prop :=
  (∀ l ∈ s.energy_hist_per_freq_band, ∀ q ∈ l, q = (0 : ℚ)) ∧
  (∀ l ∈ s.beat_histories, ∀ b ∈ l, b = false)

/-- Concrete full beat history used to separate the source's mode selection
from the spec's statistical filter: beats at positions 0, 19, 60, 79, 120,
141, 180 and 201, giving gap length 19 two occurrences and gap length 21 two
occurrences (and no other gap in range more than one). -/
def hC1 : List Bool := [
  true, false, false, false, false, false, false, false, false, false, false, false, false, false,
  false, false, false, false, false, true, false, false, false, false, false, false, false, false,
  false, false, false, false, false, false, false, false, false, false, false, false, false, false,
  false, false, false, false, false, false, false, false, false, false, false, false, false, false,
  false, false, false, false, true, false, false, false, false, false, false, false, false, false,
  false, false, false, false, false, false, false, false, false, true, false, false, false, false,
  false, false, false, false, false, false, false, false, false, false, false, false, false, false,
  false, false, false, false, false, false, false, false, false, false, false, false, false, false,
  false, false, false, false, false, false, false, false, true, false, false, false, false, false,
  false, false, false, false, false, false, false, false, false, false, false, false, false, false,
  false, true, false, false, false, false, false, false, false, false, false, false, false, false,
  false, false, false, false, false, false, false, false, false, false, false, false, false, false,
  false, false, false, false, false, false, false, false, false, false, false, false, true, false,
  false, false, false, false, false, false, false, false, false, false, false, false, false, false,
  false, false, false, false, false, true, false, false, false, false, false, false, false, false,
  false, false, false, false, false, false, false, false, false, false, false, false, false, false,
  false, false, false, false, false, false, false, false, false, false, false, false, false, false,
  false, false, false, false, false, false, false, false, false, false, false, false, false, false,
  false, false, false, false, false, false, false, false, false, false, false, false, false, false,
  false, false, false, false, false, false, false, false, false, false, false, false, false, false,
  false, false, false, false, false, false, false, false, false, false, false, false, false, false,
  false, false, false, false, false, false, false]

/-- An always-raising pluggable transform, such as a misconfigured library
transform that rejects the block length. -/
def failing_fft : List ℚ → Except Unit (List Cx) := fun _ => Except.error ()

/-- An arbitrary twiddle assignment for concrete witnesses; the theorems
about the reference fft hold for every assignment. -/
def zero_w : ℕ → ℕ → Cx := fun _ _ => Cx.zero

/-- A state with full energy histories: band 0 has seen only silence while
band 1 has seen constant energy 1000, so a moderate uniform block beats
band 0's threshold but not band 1's.  Beat histories are empty. -/
def cexState2 : DetectorState :=
  ⟨List.replicate 43 0 :: List.replicate 43 1000 :: List.replicate 30 (List.replicate 43 0),
    List.replicate 32 []⟩

/-- A flat 1024-bin spectrum of squared modulus 1 per bin: every band gets
instantaneous energy 32. -/
def cexSpectrum2 : List Cx :=
  List.replicate 1024 ⟨1, 0⟩

/-- A state whose 32 energy histories are full with constant energy 883 and
whose beat histories are empty. -/
def cexState7 : DetectorState :=
  ⟨List.replicate 32 (List.replicate 43 883), List.replicate 32 []⟩

/-- A flat 1024-bin spectrum of squared modulus 36 per bin: every band gets
instantaneous energy 32 * 36 = 1152, which is strictly above 1.3 times the
prior-history mean 883 but strictly below 1.3 times the source's average of
the pushed window (42 * 883 + 1152) / 43. -/
def cexSpectrum7 : List Cx :=
  List.replicate 1024 ⟨6, 0⟩

/-- A state whose band 0 beat history is the full history hC1 and whose
other beat histories are empty. -/
def sC3 : DetectorState :=
  ⟨List.replicate 32 [], hC1 :: List.replicate 31 []⟩

/-- A block of 1024 all-zero mono samples. -/
def zeroBlock : List (List ℚ) := List.replicate 1024 ([0] : List ℚ)

/-- A state agreeing with initState on every beat history but with nonempty
energy histories. -/
def sC10 : DetectorState :=
  ⟨List.replicate 32 ([5] : List ℚ), List.replicate 32 []⟩

/-! ### List and deque helpers -/

theorem dequePush_length {α : Type} (m : ℕ) (xs : List α) (a : α) :
    (dequePush m xs a).length = min (xs.length + 1) m := by
  simp only [dequePush, List.length_drop, List.length_append, List.length_cons,
    List.length_nil]
  omega

theorem dequePush_mem {α : Type} {m : ℕ} {xs : List α} {a x : α}
    (hx : x ∈ dequePush m xs a) : x ∈ xs ∨ x = a := by
  have hx2 : x ∈ xs ++ [a] := List.drop_subset _ _ hx
  simpa using hx2

theorem getD_all_eq {α : Type} {l : List α} {d : α} (h : ∀ c ∈ l, c = d) :
    ∀ k, l.getD k d = d := by
  intro k
  induction l generalizing k with
  | nil => simp
  | cons x xs ih =>
    cases k with
    | zero => simpa using h x (by simp)
    | succ n => simpa using ih (fun c hc => h c (by simp [hc])) n

theorem getD_map_sum_div (eh : List (List ℚ)) (i : ℕ) :
    (eh.map (fun x => x.sum / 43)).getD i 0 = (eh.getD i []).sum / 43 := by
  simp only [List.getD_eq_getElem?_getD, List.getElem?_map]
  cases h : eh[i]? with
  | none => simp
  | some l => simp

theorem getD_zipWith {α β γ : Type} (f : α → β → γ) (as : List α) (bs : List β)
    (i : ℕ) (da : α) (db : β) (dc : γ) (ha : i < as.length) (hb : i < bs.length) :
    (List.zipWith f as bs).getD i dc = f (as.getD i da) (bs.getD i db) := by
  simp only [List.getD_eq_getElem?_getD, List.getElem?_zipWith,
    List.getElem?_eq_getElem ha, List.getElem?_eq_getElem hb]
  rfl

theorem getD_mapIdx {α : Type} (f : ℕ → α → α) (l : List α) (i : ℕ) (d : α) :
    (List.mapIdx f l).getD i d = if i < l.length then f i (l.getD i d) else d := by
  simp only [List.getD_eq_getElem?_getD, List.getElem?_mapIdx]
  by_cases h : i < l.length
  · simp only [List.getElem?_eq_getElem h, if_pos h]
    rfl
  · rw [List.getElem?_eq_none (by omega)]
    simp [h]

theorem getD_replicate {α : Type} (n : ℕ) (a d : α) (k : ℕ) :
    (List.replicate n a).getD k d = if k < n then a else d := by
  simp only [List.getD_eq_getElem?_getD, List.getElem?_replicate]
  by_cases h : k < n <;> simp [h]

/-! ### Counting-dict helpers -/

theorem key_order_aux_subset (l : List ℚ) :
    ∀ acc : List ℚ,
      ∀ x ∈ l.foldl (fun ks b => if b ∈ ks then ks else ks ++ [b]) acc,
        x ∈ acc ∨ x ∈ l := by
  induction l with
  | nil => intro acc x hx; exact Or.inl hx
  | cons a as ih =>
    intro acc x hx
    simp only [List.foldl_cons] at hx
    rcases ih _ x hx with h | h
    · by_cases ha : a ∈ acc
      · rw [if_pos ha] at h; exact Or.inl h
      · rw [if_neg ha] at h
        rcases List.mem_append.mp h with h | h
        · exact Or.inl h
        · simp only [List.mem_singleton] at h
          exact Or.inr (by simp [h])
    · exact Or.inr (by simp [h])

theorem key_order_aux_mono (l : List ℚ) :
    ∀ acc : List ℚ,
      ∀ x ∈ acc, x ∈ l.foldl (fun ks b => if b ∈ ks then ks else ks ++ [b]) acc := by
  induction l with
  | nil => intro acc x hx; exact hx
  | cons a as ih =>
    intro acc x hx
    simp only [List.foldl_cons]
    refine ih _ x ?_
    by_cases ha : a ∈ acc
    · rwa [if_pos ha]
    · rw [if_neg ha]; exact List.mem_append_left _ hx

theorem key_order_aux_complete (l : List ℚ) :
    ∀ acc : List ℚ,
      ∀ x ∈ l, x ∈ l.foldl (fun ks b => if b ∈ ks then ks else ks ++ [b]) acc := by
  induction l with
  | nil => intro acc x hx; exact absurd hx (List.not_mem_nil x)
  | cons a as ih =>
    intro acc x hx
    simp only [List.foldl_cons]
    rcases List.mem_cons.mp hx with h | h
    · subst h
      refine key_order_aux_mono as _ x ?_
      by_cases ha : x ∈ acc
      · rwa [if_pos ha]
      · rw [if_neg ha]; exact List.mem_append_right _ (by simp)
    · exact ih _ x h

theorem key_order_subset {l : List ℚ} : ∀ x ∈ key_order l, x ∈ l := by
  intro x hx
  rcases key_order_aux_subset l [] x hx with h | h
  · exact absurd h (List.not_mem_nil x)
  · exact h

theorem mem_key_order {l : List ℚ} : ∀ x ∈ l, x ∈ key_order l :=
  fun x hx => key_order_aux_complete l [] x hx

theorem key_order_ne_nil {l : List ℚ} (hl : l ≠ []) : key_order l ≠ [] := by
  obtain ⟨a, as, rfl⟩ := List.exists_cons_of_ne_nil hl
  intro h
  have := @mem_key_order (a :: as) a (by simp)
  rw [h] at this
  exact absurd this (List.not_mem_nil a)

theorem count_pairs_shape {l : List ℚ} {p : ℚ × ℕ} (hp : p ∈ count_pairs l) :
    p.1 ∈ l ∧ p.2 = l.count p.1 := by
  simp only [count_pairs, List.mem_map] at hp
  obtain ⟨b, hb, rfl⟩ := hp
  exact ⟨key_order_subset b hb, rfl⟩

instance : IsTotal (ℚ × ℕ) (fun a b => b.2 ≤ a.2) :=
  ⟨fun a b => le_total b.2 a.2⟩

instance : IsTrans (ℚ × ℕ) (fun a b => b.2 ≤ a.2) :=
  ⟨fun _ _ _ hab hbc => le_trans hbc hab⟩

theorem most_common_spec {l : List ℚ} (hl : l ≠ []) :
    most_common l ∈ l ∧ ∀ q ∈ l, l.count q ≤ l.count (most_common l) := by
  have hkey : key_order l ≠ [] := key_order_ne_nil hl
  have hcp : count_pairs l ≠ [] := by
    simp only [count_pairs, ne_eq, List.map_eq_nil_iff]; exact hkey
  have hperm := List.perm_insertionSort (fun a b : ℚ × ℕ => b.2 ≤ a.2) (count_pairs l)
  have hsorted := List.sorted_insertionSort (fun a b : ℚ × ℕ => b.2 ≤ a.2) (count_pairs l)
  have hsne : List.insertionSort (fun a b : ℚ × ℕ => b.2 ≤ a.2) (count_pairs l) ≠ [] := by
    intro h; rw [h] at hperm; exact hcp hperm.symm.eq_nil
  obtain ⟨p, rest, hcons⟩ := List.exists_cons_of_ne_nil hsne
  have hhead : most_common l = p.1 := by
    rw [most_common, sort_by_count_desc, hcons]; rfl
  have hpmem : p ∈ count_pairs l := hperm.subset (by rw [hcons]; simp)
  obtain ⟨hp1, hp2⟩ := count_pairs_shape hpmem
  rw [hcons] at hsorted
  constructor
  · rw [hhead]; exact hp1
  · intro q hq
    have hqpair : (q, l.count q) ∈ count_pairs l := by
      simp only [count_pairs, List.mem_map]
      exact ⟨q, mem_key_order q hq, rfl⟩
    have hqs : (q, l.count q) ∈ p :: rest := by
      rw [← hcons]; exact hperm.symm.subset hqpair
    rcases List.mem_cons.mp hqs with h | h
    · have hc : l.count q = p.2 := by rw [← h]
      rw [hhead, ← hp2, hc]
    · have hrel := List.rel_of_sorted_cons hsorted _ h
      rw [hhead, ← hp2]
      exact hrel

/-! ### Tempo-estimator helpers -/

theorem detect_tempo_not_full {h : List Bool} (hl : h.length ≠ 43 * 7) :
    detect_tempo h = none := by
  simp [detect_tempo, hl]

theorem detect_tempo_some {h : List Bool} {b : ℚ} (hb : detect_tempo h = some b) :
    h.length = 43 * 7 ∧ 2 ≤ (bpm_candidates h).length ∧
      b = most_common (bpm_candidates h) ∧ 71 < b ∧ b < 139 := by
  simp only [detect_tempo] at hb
  split_ifs at hb with h1 h2 h3
  · injection hb with hb
    subst hb
    exact ⟨by omega, by omega, rfl, h3.1, h3.2⟩

theorem mem_bpm_candidates {h : List Bool} {b : ℚ} (hb : b ∈ bpm_candidates h) :
    ∃ g, 19 ≤ g ∧ g < 35 ∧ 2 ≤ gapCount h g ∧ b = gap_to_bpm g := by
  simp only [bpm_candidates, gapKeys, List.mem_flatMap, List.mem_filter,
    List.mem_range'_1, List.mem_replicate, decide_eq_true_eq] at hb
  obtain ⟨g, ⟨⟨⟨hg1, hg2⟩, _⟩, hg3⟩, _, rfl⟩ := hb
  exact ⟨g, hg1, by omega, hg3, rfl⟩

theorem gap_to_bpm_band {g : ℕ} (h1 : 19 ≤ g) (h2 : g < 35) :
    71 < gap_to_bpm g ∧ gap_to_bpm g < 139 := by
  unfold gap_to_bpm
  interval_cases g <;> norm_num

theorem detect_tempo_full {h : List Bool} (hl : h.length = 43 * 7)
    (h2 : 2 ≤ (bpm_candidates h).length) :
    detect_tempo h = some (most_common (bpm_candidates h)) := by
  have hne : bpm_candidates h ≠ [] := by
    intro e; rw [e] at h2; simp at h2
  obtain ⟨g, hg1, hg2, _, hgb⟩ := mem_bpm_candidates (most_common_spec hne).1
  have hband := gap_to_bpm_band hg1 hg2
  rw [← hgb] at hband
  simp only [detect_tempo, hl, ne_eq, not_true_eq_false, if_false,
    Nat.not_lt.mpr h2, if_true, hband.1, hband.2, and_self, if_pos]

theorem detect_tempos_some {s : DetectorState} {b : ℚ} (hb : detect_tempos s = some b) :
    ∃ i, i < 16 ∧ detect_tempo (s.beat_histories.getD i []) = some b := by
  simp only [detect_tempos] at hb
  split_ifs at hb with hnil
  injection hb with hb
  have hmem := (most_common_spec hnil).1
  rw [hb] at hmem
  rw [List.reduceOption_mem_iff, List.mem_map] at hmem
  obtain ⟨i, hi, hdi⟩ := hmem
  exact ⟨i, List.mem_range.mp hi, hdi⟩

theorem detect_tempo_all_false {h : List Bool} (hf : ∀ b ∈ h, b = false) :
    detect_tempo h = none := by
  by_cases hl : h.length = 43 * 7
  · have hgap : ∀ g, gapCount h g = 0 := by
      intro g
      simp only [gapCount, List.length_eq_zero]
      rw [List.filter_eq_nil_iff]
      intro a _
      rw [getD_all_eq hf, getD_all_eq hf]
      simp
    have hcand : bpm_candidates h = [] := by
      simp [bpm_candidates, gapKeys, hgap]
    simp [detect_tempo, hl, hcand]
  · exact detect_tempo_not_full hl

/-! ### Beat-classifier helpers -/

theorem inst_energies_length (spectrum : List Cx) :
    (inst_energies spectrum).length = 32 := by
  simp [inst_energies]

theorem getD_of_length_le {α : Type} {l : List α} {n : ℕ} (h : l.length ≤ n) (d : α) :
    l.getD n d = d := by
  rw [List.getD_eq_getElem?_getD, List.getElem?_eq_none h]
  rfl

theorem detect_beat_core_band (s : DetectorState) (spectrum : List Cx)
    (h32e : s.energy_hist_per_freq_band.length = 32)
    (h32b : s.beat_histories.length = 32)
    (hfull : 42 ≤ (s.energy_hist_per_freq_band.getD 0 []).length) :
    (detect_beat_core s spectrum).energy_hist_per_freq_band =
        pushed_energy s (inst_energies spectrum) ∧
    (detect_beat_core s spectrum).beat_histories.length = 32 ∧
    (∀ i, i < 16 →
      (detect_beat_core s spectrum).beat_histories.getD i [] =
        dequePush (43 * 7) (s.beat_histories.getD i [])
          (decide ((inst_energies spectrum).getD i 0 >
            ((pushed_energy s (inst_energies spectrum)).getD i []).sum / 43 * (13 / 10)))) ∧
    (∀ i, 16 ≤ i →
      (detect_beat_core s spectrum).beat_histories.getD i [] =
        s.beat_histories.getD i []) := by
  have hinst : (inst_energies spectrum).length = 32 := inst_energies_length spectrum
  have heh0 : (pushed_energy s (inst_energies spectrum)).getD 0 [] =
      dequePush 43 (s.energy_hist_per_freq_band.getD 0 []) ((inst_energies spectrum).getD 0 0) := by
    rw [pushed_energy]
    exact getD_zipWith _ _ _ 0 [] 0 [] (by omega) (by omega)
  have hcond : ((pushed_energy s (inst_energies spectrum)).getD 0 []).length = 43 := by
    rw [heh0, dequePush_length]
    omega
  simp only [detect_beat_core, hcond, if_true]
  refine ⟨trivial, by simp [h32b], ?_, ?_⟩
  · intro i hi
    rw [getD_mapIdx, if_pos (by omega), if_pos hi, getD_map_sum_div]
  · intro i hi
    by_cases hlt : i < 32
    · rw [getD_mapIdx, if_pos (by omega), if_neg (by omega)]
    · rw [getD_mapIdx, if_neg (by omega), getD_of_length_le (by omega)]

theorem detect_tempos_frame {s₁ s₂ : DetectorState}
    (hb : ∀ i, i < 16 → s₁.beat_histories.getD i [] = s₂.beat_histories.getD i []) :
    detect_tempos s₁ = detect_tempos s₂ := by
  have hmap : ((List.range 16).map (fun i => detect_tempo (s₁.beat_histories.getD i []))) =
      ((List.range 16).map (fun i => detect_tempo (s₂.beat_histories.getD i []))) := by
    apply List.map_congr_left
    intro i hi
    rw [hb i (List.mem_range.mp hi)]
  simp only [detect_tempos, hmap]

/-! ### Silence helpers -/

theorem mem_evens {α : Type} : ∀ (l : List α) (x : α), x ∈ evens l → x ∈ l
  | [], x, hx => absurd hx (List.not_mem_nil x)
  | [_], x, hx => hx
  | _ :: _ :: rest, x, hx => by
    simp only [evens] at hx
    rcases List.mem_cons.mp hx with h | h
    · simp [h]
    · have := mem_evens rest x h
      simp [this]

theorem mem_odds {α : Type} : ∀ (l : List α) (x : α), x ∈ odds l → x ∈ l
  | [], x, hx => absurd hx (List.not_mem_nil x)
  | [_], x, hx => absurd hx (List.not_mem_nil x)
  | _ :: _ :: rest, x, hx => by
    simp only [odds] at hx
    rcases List.mem_cons.mp hx with h | h
    · simp [h]
    · have := mem_odds rest x h
      simp [this]

theorem Cx.mul_zero_right (a : Cx) : Cx.mul a Cx.zero = Cx.zero := by
  simp [Cx.mul, Cx.zero]

theorem fftRef_zero_aux (w : ℕ → ℕ → Cx) :
    ∀ (n : ℕ) (x : List Cx), x.length ≤ n → (∀ c ∈ x, c = Cx.zero) →
      ∀ c ∈ fftRef w x, c = Cx.zero := by
  intro n
  induction n with
  | zero =>
    intro x hlen hx c hc
    rw [fftRef, if_pos (by omega)] at hc
    exact hx c hc
  | succ n ih =>
    intro x hlen hx c hc
    rw [fftRef] at hc
    split at hc
    · exact hx c hc
    · rename_i hgt
      have heven : ∀ c ∈ fftRef w (evens x), c = Cx.zero :=
        ih (evens x) (by rw [evens_length]; omega) (fun c hc => hx c (mem_evens x c hc))
      have hodd : ∀ c ∈ fftRef w (odds x), c = Cx.zero :=
        ih (odds x) (by rw [odds_length]; omega) (fun c hc => hx c (mem_odds x c hc))
      have ht : ∀ c ∈ (List.range (x.length / 2)).map
          (fun k => Cx.mul (w x.length k) ((fftRef w (odds x)).getD k Cx.zero)), c = Cx.zero := by
        intro c hc
        obtain ⟨k, _, rfl⟩ := List.mem_map.mp hc
        rw [getD_all_eq hodd, Cx.mul_zero_right]
      rcases List.mem_append.mp hc with h | h
      · obtain ⟨k, _, rfl⟩ := List.mem_map.mp h
        rw [getD_all_eq heven, getD_all_eq ht]
        simp [Cx.add, Cx.zero]
      · obtain ⟨k, _, rfl⟩ := List.mem_map.mp h
        rw [getD_all_eq heven, getD_all_eq ht]
        simp [Cx.sub, Cx.zero]

theorem fftRef_zero (w : ℕ → ℕ → Cx) (x : List Cx) (hx : ∀ c ∈ x, c = Cx.zero) :
    ∀ c ∈ fftRef w x, c = Cx.zero :=
  fftRef_zero_aux w x.length x le_rfl hx

theorem collapse_zero {data : List (List ℚ)} (hz : ∀ smp ∈ data, ∀ v ∈ smp, v = 0) :
    ∀ q ∈ collapse data, q = 0 := by
  intro q hq
  obtain ⟨smp, hsmp, rfl⟩ := List.mem_map.mp hq
  rw [List.sum_eq_zero (hz smp hsmp)]
  simp

theorem inst_energies_zero {spectrum : List Cx} (hs : ∀ c ∈ spectrum, c = Cx.zero) :
    ∀ e ∈ inst_energies spectrum, e = 0 := by
  intro e he
  simp only [inst_energies, List.mem_map] at he
  obtain ⟨sb, _, rfl⟩ := he
  apply List.sum_eq_zero
  intro q hq
  simp only [List.mem_map] at hq
  obtain ⟨i, _, rfl⟩ := hq
  have hampl : ∀ q ∈ spectrum.map (fun d => d.re * d.re + d.im * d.im), q = 0 := by
    intro q hq2
    obtain ⟨c, hc, rfl⟩ := List.mem_map.mp hq2
    rw [hs c hc]
    simp [Cx.zero]
  rw [getD_all_eq hampl]

theorem mem_zipWith {α β γ : Type} {f : α → β → γ} :
    ∀ {as : List α} {bs : List β} {c : γ}, c ∈ List.zipWith f as bs →
      ∃ a b, a ∈ as ∧ b ∈ bs ∧ c = f a b := by
  intro as
  induction as with
  | nil => intro bs c hc; simp at hc
  | cons a as ih =>
    intro bs c hc
    cases bs with
    | nil => simp at hc
    | cons b bs =>
      simp only [List.zipWith_cons_cons] at hc
      rcases List.mem_cons.mp hc with h | h
      · exact ⟨a, b, by simp, by simp, h⟩
      · obtain ⟨a2, b2, h1, h2, h3⟩ := ih h
        exact ⟨a2, b2, by simp [h1], by simp [h2], h3⟩

theorem getD_mem_or_default {α : Type} (l : List α) (i : ℕ) (d : α) :
    l.getD i d ∈ l ∨ l.getD i d = d := by
  by_cases h : i < l.length
  · left
    rw [List.getD_eq_getElem?_getD, List.getElem?_eq_getElem h]
    exact List.getElem_mem h
  · right
    exact getD_of_length_le (by omega) d

theorem detect_beat_core_zero {s : DetectorState} {spectrum : List Cx}
    (hzs : ZeroState s) (hsp : ∀ c ∈ spectrum, c = Cx.zero) :
    ZeroState (detect_beat_core s spectrum) := by
  obtain ⟨he, hb⟩ := hzs
  have hinst := inst_energies_zero hsp
  have heh : ∀ l ∈ pushed_energy s (inst_energies spectrum), ∀ q ∈ l, q = 0 := by
    intro l hl q hq
    obtain ⟨hist, e, hh, hei, rfl⟩ := mem_zipWith hl
    rcases dequePush_mem hq with h | h
    · exact he hist hh q h
    · rw [h]; exact hinst e hei
  have hsum : ∀ i : ℕ, ((pushed_energy s (inst_energies spectrum)).getD i []).sum = 0 := by
    intro i
    rcases getD_mem_or_default (pushed_energy s (inst_energies spectrum)) i [] with h | h
    · exact List.sum_eq_zero (heh _ h)
    · rw [h]; rfl
  have hflag : ∀ i : ℕ,
      decide ((inst_energies spectrum).getD i 0 >
        ((pushed_energy s (inst_energies spectrum)).map (fun x => x.sum / 43)).getD i 0 * (13 / 10)) = false := by
    intro i
    rw [getD_map_sum_div, hsum, getD_all_eq hinst]
    norm_num
  constructor
  · intro l hl
    simp only [detect_beat_core] at hl
    split at hl <;> exact heh l hl
  · intro l hl b hbmem
    simp only [detect_beat_core] at hl
    split at hl
    · simp only at hl
      obtain ⟨i, hilt, hieq⟩ := List.mem_iff_getElem.mp hl
      rw [List.getElem_mapIdx] at hieq
      by_cases hi16 : i < 16
      · rw [if_pos hi16, hflag i] at hieq
        rw [← hieq] at hbmem
        rcases dequePush_mem hbmem with h | h
        · have hlen : i < s.beat_histories.length := by simpa using hilt
          exact hb _ (List.getElem_mem hlen) b h
        · exact h
      · rw [if_neg hi16] at hieq
        rw [← hieq] at hbmem
        have hlen : i < s.beat_histories.length := by simpa using hilt
        exact hb _ (List.getElem_mem hlen) b hbmem
    · simp only at hl
      exact hb l hl b hbmem

theorem detect_tempos_of_all_none {s : DetectorState}
    (hall : ∀ i : ℕ, i < 16 → detect_tempo (s.beat_histories.getD i []) = none) :
    detect_tempos s = none := by
  have hmap : ((List.range 16).map (fun i => detect_tempo (s.beat_histories.getD i []))) =
      List.replicate 16 none := by
    rw [show ((List.range 16).map (fun i => detect_tempo (s.beat_histories.getD i []))) =
        (List.range 16).map (fun _ => (none : Option ℚ)) from
      List.map_congr_left (fun i hi => hall i (List.mem_range.mp hi))]
    simp [List.map_const]
  have hred : (((List.range 16).map
      (fun i => detect_tempo (s.beat_histories.getD i []))).reduceOption) = [] := by
    rw [hmap]
    simp [List.reduceOption]
  simp only [detect_tempos, hred]
  simp

theorem detect_tempos_zero {s : DetectorState}
    (hz : ∀ l ∈ s.beat_histories, ∀ b ∈ l, b = false) :
    detect_tempos s = none := by
  apply detect_tempos_of_all_none
  intro i _
  apply detect_tempo_all_false
  rcases getD_mem_or_default s.beat_histories i [] with h | h
  · exact hz _ h
  · rw [h]; intro b hbm; simp at hbm

theorem detect_tempos_short {s : DetectorState}
    (h : ∀ i : ℕ, i < 16 → (s.beat_histories.getD i []).length ≠ 43 * 7) :
    detect_tempos s = none :=
  detect_tempos_of_all_none (fun i hi => detect_tempo_not_full (h i hi))

theorem initState_zero : ZeroState initState := by
  constructor <;> intro l hl <;> simp only [initState] at hl <;>
    rw [List.eq_of_mem_replicate hl] <;> intro x hx <;> simp at hx

theorem run_blocks_zero {fftI : List ℚ → List Cx}
    (hfz : ∀ data : List ℚ, (∀ q ∈ data, q = 0) → ∀ c ∈ fftI data, c = Cx.zero) :
    ∀ (blocks : List (List (List ℚ))) (s : DetectorState), ZeroState s →
      (∀ blk ∈ blocks, ∀ smp ∈ blk, ∀ v ∈ smp, v = (0 : ℚ)) →
      ∀ o ∈ (run_blocks (fftOk fftI) s blocks).2, o = none := by
  intro blocks
  induction blocks with
  | nil =>
    intro s _ _ o ho
    simp [run_blocks] at ho
  | cons blk rest ih =>
    intro s hzs hzb o ho
    simp only [run_blocks, process_block, detect_beat, fftOk] at ho
    have hspec : ∀ c ∈ fftI (collapse blk), c = Cx.zero :=
      hfz _ (collapse_zero (hzb blk (by simp)))
    have hzs' : ZeroState (detect_beat_core s (fftI (collapse blk))) :=
      detect_beat_core_zero hzs hspec
    rcases List.mem_cons.mp ho with h | h
    · rw [h]
      exact detect_tempos_zero hzs'.2
    · exact ih _ hzs' (fun b hb => hzb b (by simp [hb])) o h

theorem chunk_blocks_mem (samples : List (List ℚ)) :
    ∀ blk ∈ chunk_blocks samples, ∀ x ∈ blk, x ∈ samples := by
  rw [chunk_blocks]
  split
  · intro blk hblk x hx
    rcases List.mem_cons.mp hblk with h | h
    · subst h
      exact List.take_subset _ _ hx
    · exact List.drop_subset _ _ (chunk_blocks_mem (samples.drop 1024) blk h x hx)
  · intro blk hblk
    simp at hblk
termination_by samples.length
decreasing_by simp only [List.length_drop]; omega

/-! ### Warm-up helpers -/

theorem detect_beat_core_lengths {s : DetectorState} {spectrum : List Cx} {j : ℕ}
    (h32e : s.energy_hist_per_freq_band.length = 32)
    (h32b : s.beat_histories.length = 32)
    (he0 : (s.energy_hist_per_freq_band.getD 0 []).length = min j 43)
    (hb0 : ∀ i, i < 16 → (s.beat_histories.getD i []).length = min (j - 42) (43 * 7)) :
    (detect_beat_core s spectrum).energy_hist_per_freq_band.length = 32 ∧
    (detect_beat_core s spectrum).beat_histories.length = 32 ∧
    ((detect_beat_core s spectrum).energy_hist_per_freq_band.getD 0 []).length = min (j + 1) 43 ∧
    (∀ i, i < 16 → ((detect_beat_core s spectrum).beat_histories.getD i []).length =
      min (j + 1 - 42) (43 * 7)) := by
  have hinst : (inst_energies spectrum).length = 32 := inst_energies_length spectrum
  have hehlen : (pushed_energy s (inst_energies spectrum)).length = 32 := by
    simp [pushed_energy, List.length_zipWith, h32e, hinst]
  have heh0 : (pushed_energy s (inst_energies spectrum)).getD 0 [] =
      dequePush 43 (s.energy_hist_per_freq_band.getD 0 []) ((inst_energies spectrum).getD 0 0) := by
    rw [pushed_energy]
    exact getD_zipWith _ _ _ 0 [] 0 [] (by omega) (by omega)
  have heh0len : ((pushed_energy s (inst_energies spectrum)).getD 0 []).length = min (j + 1) 43 := by
    rw [heh0, dequePush_length, he0]
    omega
  by_cases hcond : ((pushed_energy s (inst_energies spectrum)).getD 0 []).length = 43
  · have hj : 42 ≤ j := by rw [heh0len] at hcond; omega
    simp only [detect_beat_core, hcond, if_true]
    refine ⟨hehlen, by simp [h32b], by omega, ?_⟩
    intro i hi
    rw [getD_mapIdx, if_pos (by omega), if_pos hi, dequePush_length, hb0 i hi]
    omega
  · have hj : ¬ 42 ≤ j := by
      intro hj42
      rw [heh0len] at hcond
      omega
    simp only [detect_beat_core, hcond, if_false]
    refine ⟨hehlen, h32b, heh0len, ?_⟩
    intro i hi
    rw [hb0 i hi]
    omega

theorem run_blocks_warmup (fftImpl : List ℚ → Except Unit (List Cx)) :
    ∀ (blocks : List (List (List ℚ))) (s : DetectorState) (j : ℕ),
      s.energy_hist_per_freq_band.length = 32 →
      s.beat_histories.length = 32 →
      (s.energy_hist_per_freq_band.getD 0 []).length = min j 43 →
      (∀ i, i < 16 → (s.beat_histories.getD i []).length = min (j - 42) (43 * 7)) →
      ∀ k, j + k < 342 → (run_blocks fftImpl s blocks).2.getD k none = none := by
  intro blocks
  induction blocks with
  | nil =>
    intro s j _ _ _ _ k _
    simp [run_blocks]
  | cons blk rest ih =>
    intro s j h1 h2 h3 h4 k hk
    simp only [run_blocks]
    cases hpb : process_block fftImpl s blk with
    | error e => simp
    | ok p =>
      simp only
      obtain ⟨s', bpm⟩ := p
      have hs' : s' = detect_beat_core s ((fftImpl (collapse blk)).toOption.getD []) ∧
          bpm = detect_tempos s' := by
        simp only [process_block, detect_beat] at hpb
        cases hfft : fftImpl (collapse blk) with
        | error e => rw [hfft] at hpb; simp at hpb
        | ok spectrum =>
          rw [hfft] at hpb
          simp only [Except.ok.injEq] at hpb
          obtain ⟨hps, hpb2⟩ := Prod.mk.injEq .. ▸ hpb
          exact ⟨by rw [← hps]; rfl, by rw [← hpb2, ← hps]⟩
      obtain ⟨hs'eq, hbpm⟩ := hs'
      obtain ⟨g1, g2, g3, g4⟩ :=
        @detect_beat_core_lengths s ((fftImpl (collapse blk)).toOption.getD []) j
          h1 h2 h3 h4
      rw [← hs'eq] at g1 g2 g3 g4
      cases k with
      | zero =>
        simp only [List.getD_cons_zero]
        rw [hbpm]
        apply detect_tempos_short
        intro i hi
        rw [g4 i hi]
        omega
      | succ k2 =>
        simp only [List.getD_cons_succ]
        exact ih s' (j + 1) g1 g2 g3 g4 k2 (by omega)

/-! ### Concrete evaluation helpers -/

theorem inst_energies_const (c : Cx) :
    inst_energies (List.replicate 1024 c) =
      List.replicate 32 (32 * (c.re * c.re + c.im * c.im)) := by
  have hmap : (List.range 32).map (fun sub_band =>
      ((List.range 32).map (fun i =>
        (List.replicate 1024 (c.re * c.re + c.im * c.im)).getD (sub_band * 32 + i) 0)).sum) =
      (List.range 32).map (fun _ => 32 * (c.re * c.re + c.im * c.im)) := by
    apply List.map_congr_left
    intro sb hsb
    have hsb32 := List.mem_range.mp hsb
    have hinner : (List.range 32).map (fun i =>
        (List.replicate 1024 (c.re * c.re + c.im * c.im)).getD (sb * 32 + i) 0) =
        (List.range 32).map (fun _ => c.re * c.re + c.im * c.im) := by
      apply List.map_congr_left
      intro i hi
      have hi32 := List.mem_range.mp hi
      rw [getD_replicate, if_pos (by omega)]
    rw [hinner, List.map_const', List.sum_replicate, List.length_range, nsmul_eq_mul]
    norm_num
  simp only [inst_energies, List.map_replicate]
  rw [hmap, List.map_const', List.length_range]

theorem dequePush_empty {α : Type} (m : ℕ) (hm : 1 ≤ m) (a : α) :
    dequePush m [] a = [a] := by
  rw [dequePush]
  simp only [List.nil_append, List.length_cons, List.length_nil]
  rw [Nat.sub_eq_zero_of_le (by omega), List.drop_zero]

theorem dequePush_full_replicate {α : Type} (m : ℕ) (hm : 1 ≤ m) (x v : α) :
    dequePush m (List.replicate m x) v = List.replicate (m - 1) x ++ [v] := by
  rw [dequePush]
  simp only [List.length_append, List.length_replicate, List.length_cons, List.length_nil]
  rw [show m + (0 + 1) - m = 1 by omega]
  rw [List.drop_append_of_le_length (by simp [hm]), List.drop_replicate]

theorem inst_cexSpectrum2 : inst_energies cexSpectrum2 = List.replicate 32 32 := by
  rw [cexSpectrum2, inst_energies_const]
  norm_num

theorem pushed_cexState2_0 :
    (pushed_energy cexState2 (inst_energies cexSpectrum2)).getD 0 [] =
      List.replicate 42 (0 : ℚ) ++ [32] := by
  rw [inst_cexSpectrum2, pushed_energy]
  simp only [cexState2]
  rw [show List.replicate 32 (32 : ℚ) = 32 :: List.replicate 31 32 from rfl]
  simp only [List.zipWith_cons_cons, List.getD_cons_zero]
  exact dequePush_full_replicate 43 (by omega) 0 32

theorem pushed_cexState2_1 :
    (pushed_energy cexState2 (inst_energies cexSpectrum2)).getD 1 [] =
      List.replicate 42 (1000 : ℚ) ++ [32] := by
  rw [inst_cexSpectrum2, pushed_energy]
  simp only [cexState2]
  rw [show List.replicate 32 (32 : ℚ) = 32 :: 32 :: List.replicate 30 32 from rfl]
  simp only [List.zipWith_cons_cons, List.getD_cons_succ, List.getD_cons_zero]
  exact dequePush_full_replicate 43 (by omega) 1000 32

theorem cex2_band0 :
    (detect_beat_core cexState2 cexSpectrum2).beat_histories.getD 0 [] = [true] := by
  obtain ⟨-, -, hlow, -⟩ := detect_beat_core_band cexState2 cexSpectrum2
    (by simp [cexState2]) (by simp [cexState2])
    (by simp [cexState2, List.getD_cons_zero])
  rw [hlow 0 (by omega)]
  have hbeat0 : cexState2.beat_histories.getD 0 [] = [] := by
    simp [cexState2, getD_replicate]
  have hinstgetD : (inst_energies cexSpectrum2).getD 0 0 = 32 := by
    rw [inst_cexSpectrum2, getD_replicate, if_pos (by omega)]
  have hsum : ((pushed_energy cexState2 (inst_energies cexSpectrum2)).getD 0 []).sum = 32 := by
    rw [pushed_cexState2_0]
    simp [List.sum_append, List.sum_replicate]
  rw [hbeat0, hinstgetD, hsum, dequePush_empty (43 * 7) (by omega)]
  rw [decide_eq_true (show (32 : ℚ) > 32 / 43 * (13 / 10) by norm_num)]

theorem cex2_band1 :
    (detect_beat_core cexState2 cexSpectrum2).beat_histories.getD 1 [] = [false] := by
  obtain ⟨-, -, hlow, -⟩ := detect_beat_core_band cexState2 cexSpectrum2
    (by simp [cexState2]) (by simp [cexState2])
    (by simp [cexState2, List.getD_cons_zero])
  rw [hlow 1 (by omega)]
  have hbeat1 : cexState2.beat_histories.getD 1 [] = [] := by
    simp [cexState2, getD_replicate]
  have hinstgetD : (inst_energies cexSpectrum2).getD 1 0 = 32 := by
    rw [inst_cexSpectrum2, getD_replicate, if_pos (by omega)]
  have hsum : ((pushed_energy cexState2 (inst_energies cexSpectrum2)).getD 1 []).sum = 42032 := by
    rw [pushed_cexState2_1]
    simp [List.sum_append, List.sum_replicate, nsmul_eq_mul]
    norm_num
  rw [hbeat1, hinstgetD, hsum, dequePush_empty (43 * 7) (by omega)]
  rw [decide_eq_false (show ¬ ((32 : ℚ) > 42032 / 43 * (13 / 10)) by norm_num)]

theorem inst_cexSpectrum7 : inst_energies cexSpectrum7 = List.replicate 32 1152 := by
  rw [cexSpectrum7, inst_energies_const]
  norm_num

theorem pushed_cexState7_0 :
    (pushed_energy cexState7 (inst_energies cexSpectrum7)).getD 0 [] =
      List.replicate 42 (883 : ℚ) ++ [1152] := by
  rw [inst_cexSpectrum7, pushed_energy]
  simp only [cexState7]
  rw [show List.replicate 32 (List.replicate 43 (883 : ℚ)) =
      List.replicate 43 (883 : ℚ) :: List.replicate 31 (List.replicate 43 883) from rfl]
  rw [show List.replicate 32 (1152 : ℚ) = 1152 :: List.replicate 31 1152 from rfl]
  simp only [List.zipWith_cons_cons, List.getD_cons_zero]
  exact dequePush_full_replicate 43 (by omega) 883 1152

theorem cex7_band0 :
    (detect_beat_core cexState7 cexSpectrum7).beat_histories.getD 0 [] = [false] := by
  obtain ⟨-, -, hlow, -⟩ := detect_beat_core_band cexState7 cexSpectrum7
    (by simp [cexState7]) (by simp [cexState7])
    (by simp [cexState7, getD_replicate])
  rw [hlow 0 (by omega)]
  have hbeat0 : cexState7.beat_histories.getD 0 [] = [] := by
    simp [cexState7, getD_replicate]
  have hinstgetD : (inst_energies cexSpectrum7).getD 0 0 = 1152 := by
    rw [inst_cexSpectrum7, getD_replicate, if_pos (by omega)]
  have hsum : ((pushed_energy cexState7 (inst_energies cexSpectrum7)).getD 0 []).sum = 38238 := by
    rw [pushed_cexState7_0]
    simp [List.sum_append, List.sum_replicate, nsmul_eq_mul]
    norm_num
  rw [hbeat0, hinstgetD, hsum, dequePush_empty (43 * 7) (by omega)]
  rw [decide_eq_false (show ¬ ((1152 : ℚ) > 38238 / 43 * (13 / 10)) by norm_num)]

theorem spec_baseline_cex7 :
    spec_baseline (cexState7.energy_hist_per_freq_band.getD 0 []) = 883 := by
  have : cexState7.energy_hist_per_freq_band.getD 0 [] = List.replicate 43 (883 : ℚ) := by
    simp [cexState7, getD_replicate]
  rw [this, spec_baseline]
  simp [List.sum_replicate, nsmul_eq_mul]
  norm_num

theorem hC1_length : hC1.length = 43 * 7 := by decide

theorem gapCount_hC1_19 : gapCount hC1 19 = 2 := by decide

theorem gapCount_hC1_21 : gapCount hC1 21 = 2 := by decide

theorem gapKeys_filter_hC1 :
    (gapKeys hC1).filter (fun g => decide (2 ≤ gapCount hC1 g)) = [19, 21] := by decide

theorem bpm_candidates_hC1 :
    bpm_candidates hC1 = [gap_to_bpm 19, gap_to_bpm 19, gap_to_bpm 21, gap_to_bpm 21] := by
  rw [bpm_candidates, gapKeys_filter_hC1]
  rw [List.flatMap_cons, List.flatMap_cons, List.flatMap_nil]
  rw [gapCount_hC1_19, gapCount_hC1_21]
  rfl

theorem gap_ne_21_19 : gap_to_bpm 21 ≠ gap_to_bpm 19 := by
  norm_num [gap_to_bpm]

theorem most_common_hC1 : most_common (bpm_candidates hC1) = gap_to_bpm 19 := by
  rw [bpm_candidates_hC1]
  have hne := gap_ne_21_19
  have hko : key_order [gap_to_bpm 19, gap_to_bpm 19, gap_to_bpm 21, gap_to_bpm 21] =
      [gap_to_bpm 19, gap_to_bpm 21] := by
    simp [key_order, hne]
  have hc19 : List.count (gap_to_bpm 19)
      [gap_to_bpm 19, gap_to_bpm 19, gap_to_bpm 21, gap_to_bpm 21] = 2 := by
    simp [List.count_cons, hne]
  have hc21 : List.count (gap_to_bpm 21)
      [gap_to_bpm 19, gap_to_bpm 19, gap_to_bpm 21, gap_to_bpm 21] = 2 := by
    simp [List.count_cons, Ne.symm hne]
  rw [most_common, count_pairs, hko]
  simp only [List.map_cons, List.map_nil, hc19, hc21]
  rw [sort_by_count_desc]
  simp [List.insertionSort, List.orderedInsert]

theorem detect_tempo_hC1 : detect_tempo hC1 = some (gap_to_bpm 19) := by
  rw [detect_tempo_full hC1_length (by rw [bpm_candidates_hC1]; simp), most_common_hC1]

theorem surviving_hC1 :
    surviving_votes (bpm_candidates hC1) =
      [gap_to_bpm 19, gap_to_bpm 19, gap_to_bpm 21, gap_to_bpm 21] := by
  rw [bpm_candidates_hC1]
  norm_num [surviving_votes, list_mean, list_var, gap_to_bpm,
    List.filter_cons, List.filter_nil]

theorem mean_surviving_hC1 :
    list_mean (surviving_votes (bpm_candidates hC1)) = 17200 / 133 := by
  rw [surviving_hC1]
  norm_num [list_mean, gap_to_bpm]

theorem most_common_singleton (a : ℚ) : most_common [a] = a := by
  rw [most_common, count_pairs]
  have hko : key_order [a] = [a] := by simp [key_order]
  rw [hko]
  simp [sort_by_count_desc, List.insertionSort, List.orderedInsert, List.count_cons]

theorem detect_tempos_sC3 : detect_tempos sC3 = some (gap_to_bpm 19) := by
  have hget0 : sC3.beat_histories.getD 0 [] = hC1 := by simp [sC3]
  have hmap : (List.range 16).map (fun i => detect_tempo (sC3.beat_histories.getD i [])) =
      some (gap_to_bpm 19) :: List.replicate 15 none := by
    rw [List.range_succ_eq_map, List.map_cons, hget0, detect_tempo_hC1, List.map_map]
    congr 1
  simp only [detect_tempos, hmap]
  rw [List.reduceOption_cons_of_some]
  have hrn : (List.replicate 15 (none : Option ℚ)).reduceOption = [] := by
    simp [List.reduceOption]
  rw [hrn]
  simp [most_common_singleton]

theorem candidates_flatMap (h : List Bool) :
    ∀ (l : List ℕ),
      ((l.filter (fun g => decide (0 < gapCount h g))).filter
        (fun g => decide (2 ≤ gapCount h g))).flatMap
          (fun g => List.replicate (gapCount h g) (gap_to_bpm g)) =
      l.flatMap (fun g => if 2 ≤ gapCount h g then
        List.replicate (gapCount h g) (gap_to_bpm g) else []) := by
  intro l
  induction l with
  | nil => rfl
  | cons a as ih =>
    by_cases h2 : 2 ≤ gapCount h a
    · have h0 : 0 < gapCount h a := by omega
      rw [List.filter_cons_of_pos (by simpa using h0),
          List.filter_cons_of_pos (by simpa using h2),
          List.flatMap_cons, List.flatMap_cons, if_pos h2, ih]
    · by_cases h0 : 0 < gapCount h a
      · rw [List.filter_cons_of_pos (by simpa using h0),
            List.filter_cons_of_neg (by simpa using h2),
            List.flatMap_cons, if_neg h2, ih]
        simp
      · rw [List.filter_cons_of_neg (by simpa using h0),
            List.flatMap_cons, if_neg h2, ih]
        simp

theorem gap_to_bpm_eq (g : ℕ) (hg : g ≠ 0) : gap_to_bpm g = 2580 / g := by
  rw [gap_to_bpm]
  have hq : (g : ℚ) ≠ 0 := Nat.cast_ne_zero.mpr hg
  field_simp
  ring

/-! ### Claim theorems -/

/-- C1, counterexample: at the concrete full beat history hC1 the spec's
statistical filter keeps all four votes (so at least 2 survive) and their
mean 17200 / 133 lies strictly inside the plausibility band, yet
_detect_tempo returns the most common vote gap_to_bpm 19 = 2580 / 19, not
the mean of the surviving votes: the source has no mean / standard
deviation step. -/
theorem C1_cex :
    hC1.length = 43 * 7 ∧
    2 ≤ (surviving_votes (bpm_candidates hC1)).length ∧
    71 < list_mean (surviving_votes (bpm_candidates hC1)) ∧
    list_mean (surviving_votes (bpm_candidates hC1)) < 139 ∧
    detect_tempo hC1 ≠ some (list_mean (surviving_votes (bpm_candidates hC1))) := by
  refine ⟨hC1_length, ?_, ?_, ?_, ?_⟩
  · rw [surviving_hC1]; simp
  · rw [mean_surviving_hC1]; norm_num
  · rw [mean_surviving_hC1]; norm_num
  · rw [detect_tempo_hC1, mean_surviving_hC1]
    intro hcontra
    injection hcontra with hcontra
    rw [gap_to_bpm] at hcontra
    norm_num at hcontra

/-- C1, amended: once the beat history is full and at least two votes were
collected, _detect_tempo always returns an estimate, namely a vote of
maximal multiplicity among the BPM votes (the mode; ties go to the vote
whose gap length was counted first) — not the mean of the votes within one
standard deviation of the vote mean. -/
theorem C1_mode (h : List Bool) (hl : h.length = 43 * 7)
    (hv : 2 ≤ (bpm_candidates h).length) :
    ∃ b, detect_tempo h = some b ∧ b ∈ bpm_candidates h ∧
      ∀ q ∈ bpm_candidates h, (bpm_candidates h).count q ≤ (bpm_candidates h).count b := by
  have hne : bpm_candidates h ≠ [] := by
    intro e; rw [e] at hv; simp at hv
  obtain ⟨hmem, hmax⟩ := most_common_spec hne
  exact ⟨most_common (bpm_candidates h), detect_tempo_full hl hv, hmem, hmax⟩

/-- Witness for C1_mode at the concrete history hC1. -/
theorem C1_mode_witness :
    ∃ b, detect_tempo hC1 = some b ∧ b ∈ bpm_candidates hC1 ∧
      ∀ q ∈ bpm_candidates hC1, (bpm_candidates hC1).count q ≤ (bpm_candidates hC1).count b :=
  C1_mode hC1 hC1_length (by rw [bpm_candidates_hC1]; simp)

/-- C2, counterexample: on the concrete state cexState2 and block spectrum
cexSpectrum2 the classifier appends true to band 0's beat history and false
to band 1's: the per-band flags differ, so there is no single aggregate
Beat Flag appended to a single beat history buffer. -/
theorem C2_cex :
    (detect_beat_core cexState2 cexSpectrum2).beat_histories.getD 0 [] ≠
      (detect_beat_core cexState2 cexSpectrum2).beat_histories.getD 1 [] := by
  rw [cex2_band0, cex2_band1]
  simp

/-- C2, amended: per processed block (with full energy histories), the
classifier appends one boolean per band — instantaneous energy strictly
above 1.3 times that band's window average — to that band's own
fixed-capacity (43 * 7 = 301) beat history, for each of the 16 lower bands,
leaving the 16 upper bands' histories untouched; there is no aggregate
cross-band flag and no single shared buffer. -/
theorem C2_per_band (s : DetectorState) (spectrum : List Cx)
    (h32e : s.energy_hist_per_freq_band.length = 32)
    (h32b : s.beat_histories.length = 32)
    (hfull : 42 ≤ (s.energy_hist_per_freq_band.getD 0 []).length) :
    (detect_beat_core s spectrum).beat_histories.length = 32 ∧
    (∀ i, i < 16 →
      (detect_beat_core s spectrum).beat_histories.getD i [] =
        dequePush (43 * 7) (s.beat_histories.getD i [])
          (decide ((inst_energies spectrum).getD i 0 >
            ((pushed_energy s (inst_energies spectrum)).getD i []).sum / 43 * (13 / 10)))) ∧
    (∀ i, 16 ≤ i → (detect_beat_core s spectrum).beat_histories.getD i [] =
      s.beat_histories.getD i []) := by
  obtain ⟨-, h1, h2, h3⟩ := detect_beat_core_band s spectrum h32e h32b hfull
  exact ⟨h1, h2, h3⟩

/-- Witness for C2_per_band at the concrete state cexState2. -/
theorem C2_per_band_witness :
    (detect_beat_core cexState2 cexSpectrum2).beat_histories.length = 32 ∧
    (∀ i, i < 16 →
      (detect_beat_core cexState2 cexSpectrum2).beat_histories.getD i [] =
        dequePush (43 * 7) (cexState2.beat_histories.getD i [])
          (decide ((inst_energies cexSpectrum2).getD i 0 >
            ((pushed_energy cexState2 (inst_energies cexSpectrum2)).getD i []).sum / 43 * (13 / 10)))) ∧
    (∀ i, 16 ≤ i → (detect_beat_core cexState2 cexSpectrum2).beat_histories.getD i [] =
      cexState2.beat_histories.getD i []) :=
  C2_per_band cexState2 cexSpectrum2 (by simp [cexState2]) (by simp [cexState2])
    (by simp [cexState2, List.getD_cons_zero])

/-- C3: every non-absent BPM handed to the publisher (the result of
_detect_tempos for the current state) lies strictly inside the plausibility
band 71 < bpm < 139. -/
theorem C3_plausibility (s : DetectorState) (b : ℚ)
    (hb : detect_tempos s = some b) : 71 < b ∧ b < 139 := by
  obtain ⟨i, -, hdi⟩ := detect_tempos_some hb
  obtain ⟨-, -, -, h71, h139⟩ := detect_tempo_some hdi
  exact ⟨h71, h139⟩

/-- Witness for C3_plausibility at the concrete state sC3. -/
theorem C3_plausibility_witness : 71 < gap_to_bpm 19 ∧ gap_to_bpm 19 < 139 :=
  C3_plausibility sC3 (gap_to_bpm 19) detect_tempos_sC3

/-- C4: for a full beat history, the per-gap occurrence counter counts
exactly the start positions flagged at both ends of the gap over the range
of gap lengths 19..34, a gap length with fewer than 2 occurrences
contributes nothing, each remaining occurrence contributes one vote of
gap_to_bpm g = 60 / (g / 43), and fewer than 2 total votes produce no
estimate. -/
theorem C4_gap_votes (h : List Bool) (hl : h.length = 43 * 7) :
    (∀ g, gapCount h g =
      (List.range (43 * 7 - g)).countP
        (fun start => h.getD start false && h.getD (start + g) false)) ∧
    (bpm_candidates h = (List.range' 19 16).flatMap
      (fun g => if 2 ≤ gapCount h g then
        List.replicate (gapCount h g) (gap_to_bpm g) else [])) ∧
    ((bpm_candidates h).length < 2 → detect_tempo h = none) := by
  refine ⟨?_, ?_, ?_⟩
  · intro g
    rw [gapCount, hl, List.countP_eq_length_filter]
  · rw [bpm_candidates, gapKeys, candidates_flatMap h (List.range' 19 16)]
  · intro hlt
    simp [detect_tempo, hl, hlt]

/-- Witness for C4_gap_votes at the concrete history hC1. -/
theorem C4_gap_votes_witness :
    (∀ g, gapCount hC1 g =
      (List.range (43 * 7 - g)).countP
        (fun start => hC1.getD start false && hC1.getD (start + g) false)) ∧
    (bpm_candidates hC1 = (List.range' 19 16).flatMap
      (fun g => if 2 ≤ gapCount hC1 g then
        List.replicate (gapCount hC1 g) (gap_to_bpm g) else [])) ∧
    ((bpm_candidates hC1).length < 2 → detect_tempo hC1 = none) :=
  C4_gap_votes hC1 hC1_length

/-- C5: for every transform and every block stream fed to a freshly
constructed detector, each of the first 342 published values is the absent
marker: a per-band beat history gains at most one entry per block and gains
nothing during the 42-block energy warm-up, so it cannot hold 301 entries
before block 343. -/
theorem C5_warmup (fftImpl : List ℚ → Except Unit (List Cx))
    (blocks : List (List (List ℚ))) (k : ℕ) (hk : k < 342) :
    (run_blocks fftImpl initState blocks).2.getD k none = none := by
  refine run_blocks_warmup fftImpl blocks initState 0 (by simp [initState])
    (by simp [initState]) (by simp [initState, getD_replicate]) ?_ k (by omega)
  intro i hi
  show ((List.replicate 32 ([] : List Bool)).getD i []).length = min (0 - 42) (43 * 7)
  rw [getD_replicate, ite_self]
  rfl

/-- Witness for C5_warmup on a one-block stream. -/
theorem C5_warmup_witness :
    (run_blocks (fftOk (fftData zero_w)) initState [zeroBlock]).2.getD 5 none = none :=
  C5_warmup (fftOk (fftData zero_w)) [zeroBlock] 5 (by omega)

/-- C6: an all-zero sample stream of arbitrary length, processed with the
included reference transform (any twiddle assignment), publishes only the
absent marker: zero energy never strictly exceeds the zero threshold, so no
beat is ever flagged and no estimate is ever produced. -/
theorem C6_silence (w : ℕ → ℕ → Cx) (samples : List (List ℚ))
    (hz : ∀ smp ∈ samples, ∀ v ∈ smp, v = (0 : ℚ)) :
    ∀ o ∈ (run_stream (fftOk (fftData w)) samples).2, o = none := by
  rw [run_stream]
  have hf : ∀ data : List ℚ, (∀ q ∈ data, q = 0) →
      ∀ c ∈ fftData w data, c = Cx.zero := by
    intro data hdata c hc
    refine fftRef_zero w _ ?_ c hc
    intro c2 hc2
    obtain ⟨q, hq, rfl⟩ := List.mem_map.mp hc2
    rw [hdata q hq]
    rfl
  refine run_blocks_zero hf (chunk_blocks samples) initState initState_zero ?_
  intro blk hblk smp hsmp v hv
  exact hz smp (chunk_blocks_mem samples blk hblk smp hsmp) v hv

/-- Witness for C6_silence on two blocks' worth of zero mono samples: the
first published value is the absent marker. -/
theorem C6_silence_witness :
    (run_stream (fftOk (fftData zero_w)) (List.replicate 2048 ([0] : List ℚ))).2.getD 0 none =
      none := by
  rcases getD_mem_or_default
      (run_stream (fftOk (fftData zero_w)) (List.replicate 2048 ([0] : List ℚ))).2 0 none with
    h | h
  · exact C6_silence zero_w (List.replicate 2048 ([0] : List ℚ))
      (by
        intro smp hsmp v hv
        rw [List.eq_of_mem_replicate hsmp] at hv
        simpa using hv) _ h
  · exact h

/-- C7, counterexample: at cexState7 and the flat block cexSpectrum7,
band 0's instantaneous energy 1152 strictly exceeds 1.3 times the mean 883
of the 43 prior recorded energies, yet the source records no beat for the
block: the average it thresholds against includes the current block's own
energy, because the window is pushed before the comparison. -/
theorem C7_cex :
    (inst_energies cexSpectrum7).getD 0 0 >
      spec_baseline (cexState7.energy_hist_per_freq_band.getD 0 []) * (13 / 10) ∧
    (detect_beat_core cexState7 cexSpectrum7).beat_histories.getD 0 [] = [false] := by
  constructor
  · rw [spec_baseline_cex7, inst_cexSpectrum7, getD_replicate, if_pos (by omega)]
    norm_num
  · exact cex7_band0

/-- C7, amended: the baseline a block is compared against is the arithmetic
mean of the 43-entry window obtained after pushing the current block's
energy: the current block's own energy is included in the average that
forms its threshold. -/
theorem C7_baseline (s : DetectorState) (spectrum : List Cx) (i : ℕ)
    (h32e : s.energy_hist_per_freq_band.length = 32)
    (h32b : s.beat_histories.length = 32)
    (hfull : 42 ≤ (s.energy_hist_per_freq_band.getD 0 []).length)
    (hi : i < 16) :
    (detect_beat_core s spectrum).beat_histories.getD i [] =
      dequePush (43 * 7) (s.beat_histories.getD i [])
        (decide ((inst_energies spectrum).getD i 0 >
          (dequePush 43 (s.energy_hist_per_freq_band.getD i [])
            ((inst_energies spectrum).getD i 0)).sum / 43 * (13 / 10))) := by
  obtain ⟨-, -, h2, -⟩ := detect_beat_core_band s spectrum h32e h32b hfull
  have hpe : (pushed_energy s (inst_energies spectrum)).getD i [] =
      dequePush 43 (s.energy_hist_per_freq_band.getD i [])
        ((inst_energies spectrum).getD i 0) := by
    rw [pushed_energy]
    exact getD_zipWith _ _ _ i [] 0 [] (by omega) (by rw [inst_energies_length]; omega)
  rw [h2 i hi, hpe]

/-- Witness for C7_baseline at the concrete state cexState7, band 0. -/
theorem C7_baseline_witness :
    (detect_beat_core cexState7 cexSpectrum7).beat_histories.getD 0 [] =
      dequePush (43 * 7) (cexState7.beat_histories.getD 0 [])
        (decide ((inst_energies cexSpectrum7).getD 0 0 >
          (dequePush 43 (cexState7.energy_hist_per_freq_band.getD 0 [])
            ((inst_energies cexSpectrum7).getD 0 0)).sum / 43 * (13 / 10))) :=
  C7_baseline cexState7 cexSpectrum7 0 (by simp [cexState7]) (by simp [cexState7])
    (by simp [cexState7, getD_replicate]) (by omega)

/-- C8, counterexample: with an always-raising transform, a two-block
stream publishes nothing at all: the uncaught failure terminates the
processing loop instead of skipping the block, so the second block is never
processed and the per-block publish count is 0, not 2. -/
theorem C8_cex :
    (run_blocks failing_fft initState [zeroBlock, zeroBlock]).2 = [] ∧
    (run_blocks failing_fft initState [zeroBlock, zeroBlock]).2.length ≠ 2 := by
  constructor
  · simp [run_blocks, process_block, detect_beat, failing_fft]
  · simp [run_blocks, process_block, detect_beat, failing_fft]

/-- C8, amended: when the transform raises on a block, no history is
touched — the analysis state is exactly the input state — but the
processing loop terminates: neither the failing block nor any subsequent
block produces a publish. -/
theorem C8_failure (fftImpl : List ℚ → Except Unit (List Cx)) (s : DetectorState)
    (data : List (List ℚ)) (rest : List (List (List ℚ)))
    (hfail : fftImpl (collapse data) = Except.error ()) :
    detect_beat fftImpl s data = Except.error () ∧
    run_blocks fftImpl s (data :: rest) = (s, []) := by
  constructor
  · rw [detect_beat, hfail]
  · simp [run_blocks, process_block, detect_beat, hfail]

/-- Witness for C8_failure with the always-raising transform. -/
theorem C8_failure_witness :
    detect_beat failing_fft initState zeroBlock = Except.error () ∧
    run_blocks failing_fft initState [zeroBlock, zeroBlock] = (initState, []) :=
  C8_failure failing_fft initState zeroBlock [zeroBlock] rfl

/-- C9: every published BPM equals gap_to_bpm g = 2580 / g for some gap
length 19 ≤ g ≤ 34 (one of 16 discrete values); every such value lies
strictly inside the plausibility band, so the final band check never
rejects a candidate the voting step produced. -/
theorem C9_discrete (s : DetectorState) (b : ℚ) (hb : detect_tempos s = some b) :
    (∃ g, 19 ≤ g ∧ g ≤ 34 ∧ b = gap_to_bpm g ∧ gap_to_bpm g = 2580 / g) ∧
    (∀ g : ℕ, 19 ≤ g → g ≤ 34 → 71 < gap_to_bpm g ∧ gap_to_bpm g < 139) ∧
    (∀ h : List Bool, h.length = 43 * 7 → 2 ≤ (bpm_candidates h).length →
      detect_tempo h ≠ none) := by
  refine ⟨?_, ?_, ?_⟩
  · obtain ⟨i, -, hdi⟩ := detect_tempos_some hb
    obtain ⟨hl, h2, hbm, -, -⟩ := detect_tempo_some hdi
    have hne : bpm_candidates (s.beat_histories.getD i []) ≠ [] := by
      intro e; rw [e] at h2; simp at h2
    have hmem := (most_common_spec hne).1
    rw [← hbm] at hmem
    obtain ⟨g, hg1, hg2, -, hgb⟩ := mem_bpm_candidates hmem
    exact ⟨g, hg1, by omega, hgb, gap_to_bpm_eq g (by omega)⟩
  · intro g h1 h2
    exact gap_to_bpm_band h1 (by omega)
  · intro h' hl h2
    rw [detect_tempo_full hl h2]
    simp

/-- Witness for C9_discrete at the concrete state sC3. -/
theorem C9_discrete_witness :
    (∃ g, 19 ≤ g ∧ g ≤ 34 ∧ gap_to_bpm 19 = gap_to_bpm g ∧ gap_to_bpm g = 2580 / g) ∧
    (∀ g : ℕ, 19 ≤ g → g ≤ 34 → 71 < gap_to_bpm g ∧ gap_to_bpm g < 139) ∧
    (∀ h : List Bool, h.length = 43 * 7 → 2 ≤ (bpm_candidates h).length →
      detect_tempo h ≠ none) :=
  C9_discrete sC3 (gap_to_bpm 19) detect_tempos_sC3

/-- C10: tempo estimation is a pure read of the pipeline state: the
per-block step returns exactly the state produced by beat detection (the
estimator changes nothing), and the estimate depends only on the 16 lower
band beat histories the estimator copies. -/
theorem C10_pure :
    (∀ (fftImpl : List ℚ → Except Unit (List Cx)) (s : DetectorState)
        (data : List (List ℚ)),
      process_block fftImpl s data =
        (detect_beat fftImpl s data).map (fun s2 => (s2, detect_tempos s2))) ∧
    (∀ s₁ s₂ : DetectorState,
      (∀ i, i < 16 → s₁.beat_histories.getD i [] = s₂.beat_histories.getD i []) →
      detect_tempos s₁ = detect_tempos s₂) := by
  constructor
  · intro fftImpl s data
    rw [process_block]
    cases detect_beat fftImpl s data <;> rfl
  · intro s₁ s₂ hb
    exact detect_tempos_frame hb

/-- Witness for C10_pure: two states differing only in their energy
histories yield the same estimate. -/
theorem C10_pure_witness : detect_tempos initState = detect_tempos sC10 :=
  C10_pure.2 initState sC10 (fun _ _ => rfl)

end PyTempo
